import Mathlib

/-!
Shallow embedding of the `cloudTings` persistence layer.

The repository is a Go CRUD application ("treats") with one persistence
interface (`TreatDatabase`) and two backends:
  * `memoryDB` — a mutex-guarded `map[string]*Treat` plus an `int64` counter
    (`nextID`, seeded at 1) used to assign ids;
  * `firestoreDB` — an adapter over the Cloud Firestore client.

The embedding below translates these operations.  Go's `map[string]*Treat`
is modelled as an association list with unique keys; `nil` maps (the state
after `Close` sets `db.treats = nil`) are modelled by `Option`, since Go
permits reads, deletes and iteration on a nil map but panics on writes.
A panic of an operation is modelled as the `none` result of that
operation.  The `int64` counter is modelled as `Int` with explicit
wraparound modulo 2^64 on increment, mirroring Go's defined two's
complement overflow.  The mutex is dropped: each operation runs atomically
on the state, which is exactly what holding the single exclusive lock for
the whole operation gives in the source.
-/

/-- The record type, from `type Treat struct` in `treats.go`.  All fields
are Go strings. -/
structure Treat where
  ID            : String
  Title         : String
  Author        : String
  PublishedDate : String
  ImageURL      : String
  Description   : String
deriving Repr, DecidableEq, Inhabited

/-- The zero value `Treat{}` used by the Firestore adapter (`t := &Treat{}`). -/
def emptyTreat : Treat := ⟨"", "", "", "", "", ""⟩

/-- The error values the in-memory backend constructs, one constructor per
`errors.New` / `fmt.Errorf` site in `memoryDB`. -/
inductive MemErr where
  /-- `memorydb: treat with unassigned ID passed into UpdateTreat` -/
  | updateUnassignedID
  /-- `memorydb: treat with unassigned ID passed into DeleteTreat` -/
  | deleteUnassignedID
  /-- `memorydb: could not delete treat with ID %q, does not exist` -/
  | deleteNotFound (id : String)
  /-- `memorydb: treat not found with ID %q` -/
  | getNotFound (id : String)
deriving Repr, DecidableEq

/-- Classification of the spec's `NotFound` kind: errors reporting that no
record has the requested id. -/
def MemErr.isNotFound : MemErr → Bool
  | .deleteNotFound _ => true
  | .getNotFound _ => true
  | _ => false

/-- Classification of the spec's `InvalidArgument` kind: errors reporting
an empty id passed by the caller. -/
def MemErr.isInvalidArgument : MemErr → Bool
  | .updateUnassignedID => true
  | .deleteUnassignedID => true
  | _ => false

/-- Association-list model of Go's `map[string]*Treat` (unordered; the
list order stands in for Go's unspecified iteration order). -/
abbrev TreatMap := List (String × Treat)

/-- Map lookup, `treat, ok := db.treats[id]`. -/
def mapGet : TreatMap → String → Option Treat
  | [], _ => none
  | (k', v) :: rest, k => if k' = k then some v else mapGet rest k

/-- Map insertion/replacement, `db.treats[k] = t`. -/
def mapPut (m : TreatMap) (k : String) (v : Treat) : TreatMap :=
  m.filter (fun p => !(p.1 == k)) ++ [(k, v)]

/-- Map removal, `delete(db.treats, k)`. -/
def mapDrop (m : TreatMap) (k : String) : TreatMap :=
  m.filter (fun p => !(p.1 == k))

/-- State of `memoryDB`: the `int64` counter and the map.  `treats = none`
models the nil map that `Close` leaves behind. -/
structure MemDB where
  nextID : Int
  treats : Option TreatMap
deriving Repr, DecidableEq

/-- `newMemoryDB()`: empty map, counter seeded at 1. -/
def newMemoryDB : MemDB := { nextID := 1, treats := some [] }

/-- Go `int64` increment with two's complement wraparound (`db.nextID++`). -/
def int64Inc (n : Int) : Int := (n + 1 + 2 ^ 63) % 2 ^ 64 - 2 ^ 63

/-- Decimal digits of a natural number, most significant first, as the
characters `'0'..'9'`.  Together with `formatInt` this models
`strconv.FormatInt(n, 10)` from the Go standard library. -/
def natToDigits (n : Nat) : List Char :=
  if h : n < 10 then [Char.ofNat (48 + n)]
  else natToDigits (n / 10) ++ [Char.ofNat (48 + n % 10)]
decreasing_by exact Nat.div_lt_self (by omega) (by omega)

/-- Model of `strconv.FormatInt(n, 10)`: decimal string, `'-'`-prefixed
for negative values. -/
def formatInt (n : Int) : String :=
  if n < 0 then String.mk ('-' :: natToDigits (-n).toNat)
  else String.mk (natToDigits n.toNat)

/-- Numeric value of a decimal digit string (inverse of `natToDigits`). -/
def parseDigits (l : List Char) : Nat :=
  l.foldl (fun a c => 10 * a + (c.toNat - 48)) 0

/-- Numeric value of a formatted id string (inverse of `formatInt`). -/
def idNum (s : String) : Int :=
  if s.data.head? = some '-' then -(parseDigits (s.data.drop 1) : Int)
  else (parseDigits s.data : Int)

/-- `memoryDB.GetTreat`: look the id up under the lock; a missing id
yields the not-found error.  The method never writes to the receiver. -/
def memGetTreat (db : MemDB) (id : String) : Except MemErr Treat :=
  match mapGet (db.treats.getD []) id with
  | some t => .ok t
  | none => .error (.getNotFound id)

/-- `memoryDB.AddTreat`: set `t.ID` to the stringified counter, store the
record under that key, increment the counter, return the id.  Writing to
the nil map left by `Close` panics in Go, modelled by `none`. -/
def memAddTreat (db : MemDB) (t : Treat) : Option (String × MemDB) :=
  match db.treats with
  | none => none
  | some m =>
    let id := formatInt db.nextID
    let t' := { t with ID := id }
    some (id, { nextID := int64Inc db.nextID, treats := some (mapPut m id t') })

/-- `memoryDB.DeleteTreat`: empty id is rejected up front; a missing id
yields the does-not-exist error; otherwise the entry is removed.  (Reads
and `delete` on a nil map are safe in Go, so this never panics.) -/
def memDeleteTreat (db : MemDB) (id : String) : Option MemErr × MemDB :=
  if id = "" then (some .deleteUnassignedID, db)
  else
    match mapGet (db.treats.getD []) id with
    | none => (some (.deleteNotFound id), db)
    | some _ => (none, { db with treats := db.treats.map (fun m => mapDrop m id) })

/-- `memoryDB.UpdateTreat`: empty id is rejected up front; otherwise the
record is stored under its id unconditionally (no existence check).
Writing to the nil map left by `Close` panics, modelled by `none`. -/
def memUpdateTreat (db : MemDB) (t : Treat) : Option (Option MemErr × MemDB) :=
  if t.ID = "" then some (some .updateUnassignedID, db)
  else
    match db.treats with
    | none => none
    | some m => some (none, { db with treats := some (mapPut m t.ID t) })

/-- Order used by `memoryDB.ListTreats`' `sort.Slice` call: compare by
`Title`. -/
def titleLe (a b : Treat) : Bool := a.Title ≤ b.Title

/-- `memoryDB.ListTreats`: collect all values of the map and sort them by
`Title`; always returns a nil error.  Iterating a nil map yields nothing,
so the post-`Close` state lists as empty. -/
def memListTreats (db : MemDB) : List Treat × Option MemErr :=
  (((db.treats.getD []).map Prod.snd).mergeSort titleLe, none)

/-- `memoryDB.Close`: sets `db.treats = nil` and returns a nil error.
The counter is left untouched. -/
def memClose (db : MemDB) : MemDB × Option MemErr :=
  ({ db with treats := none }, none)

/-- One call against the in-memory store, for stating whole-interface
properties. -/
inductive MemOp where
  | get (id : String)
  | add (t : Treat)
  | update (t : Treat)
  | del (id : String)
  | list
  | close
deriving Repr, DecidableEq

/-- The error component of a `GetTreat` result. -/
def exceptErr : Except MemErr Treat → Option MemErr
  | .ok _ => none
  | .error e => some e

/-- Effect of one call on the store state, together with the error the
call returned (if any); `none` is a panic. -/
def memStep (op : MemOp) (db : MemDB) : Option (MemDB × Option MemErr) :=
  match op with
  | .get id => some (db, exceptErr (memGetTreat db id))
  | .add t => (memAddTreat db t).map (fun p => (p.2, none))
  | .update t => (memUpdateTreat db t).map (fun p => (p.2, p.1))
  | .del id => some ((memDeleteTreat db id).2, (memDeleteTreat db id).1)
  | .list => some (db, (memListTreats db).2)
  | .close => some ((memClose db).1, (memClose db).2)

/-- Run a sequence of calls from a state; `none` as soon as one panics. -/
def runMem : List MemOp → MemDB → Option MemDB
  | [], db => some db
  | op :: rest, db => (memStep op db).bind (fun p => runMem rest p.1)

/-- A call in a sequence of `AddTreat`s interleaved with `DeleteTreat`s. -/
inductive AddDel where
  | addT (t : Treat)
  | delT (id : String)
deriving Repr, DecidableEq

/-- Run an add/delete sequence, collecting the ids the `AddTreat` calls
return, in call order; `none` if a call panics. -/
def runAddDel : List AddDel → MemDB → Option (MemDB × List String)
  | [], db => some (db, [])
  | .addT t :: rest, db =>
    (memAddTreat db t).bind (fun p =>
      (runAddDel rest p.2).map (fun q => (q.1, p.1 :: q.2)))
  | .delT id :: rest, db => runAddDel rest (memDeleteTreat db id).2

/-- Number of `AddTreat` calls in the sequence. -/
def countAdds (ops : List AddDel) : Nat :=
  ops.countP (fun op => match op with | .addT _ => true | _ => false)

/-- The ids `formatInt n, formatInt (n+1), ..., formatInt (n+k-1)`. -/
def idsFrom (n : Int) (k : Nat) : List String :=
  (List.range k).map (fun i : Nat => formatInt (n + (i : Int)))

/-- The store invariant: every entry's stored record carries a non-empty
id equal to the key it is stored under. -/
def storeOK (db : MemDB) : Prop :=
  ∀ p ∈ db.treats.getD [], p.1 ≠ "" ∧ p.2.ID = p.1

instance (db : MemDB) : Decidable (storeOK db) := by
  unfold storeOK; infer_instance

/-!
Firestore adapter.  The `cloud.google.com/go/firestore` client is a
third-party dependency, so its behaviour is abstracted into `FsClient`:
each field gives the outcome of one kind of client call, a `String` being
the underlying error it reports.  What is translated faithfully from
`src` is the adapter code itself — which calls it makes and what it does
with each outcome.
-/

/-- Outcome of `DocumentSnapshot.DataTo(t)` for a fetched document: the
(possibly partially) populated record produced from the passed-in value,
and the error, if any, that `DataTo` returns. -/
structure FsDoc where
  dataTo : Treat → Treat × Option String

/-- Abstracted Firestore client: outcomes of the client calls the adapter
makes. -/
structure FsClient where
  /-- `client.Collection(c).Doc(id).Get(ctx)` -/
  getDoc : String → Except String FsDoc
  /-- `client.Collection(c).Doc(id).Set(ctx, t)` -/
  setDoc : String → Treat → Option String

/-- The errors the Firestore adapter constructs.  Every error site in the
adapter is a `fmt.Errorf` wrap of a failed client call — the spec's
`BackendError` kind; the adapter never constructs an argument-validation
error. -/
inductive FsErr where
  /-- `firestoredb: Get: %v` -/
  | getFailed (cause : String)
  /-- `firestsore: Set: %v` -/
  | setFailed (cause : String)
deriving Repr, DecidableEq

/-- Classification: no Firestore-adapter error is of the
`InvalidArgument` kind. -/
def FsErr.isInvalidArgument : FsErr → Bool := fun _ => false

/-- Classification: every Firestore-adapter error is of the
`BackendError` kind (a wrap of an underlying client failure). -/
def FsErr.isBackend : FsErr → Bool := fun _ => true

/-- `firestoreDB.GetTreat`: fetch the document; on fetch failure wrap and
return the error.  Otherwise run `ds.DataTo(t)` on a zero `Treat{}` and
return the result — the error `DataTo` returns is discarded, exactly as
in the source (`ds.DataTo(t)` with no error check). -/
def firestoreGetTreat (c : FsClient) (id : String) : Except FsErr Treat :=
  match c.getDoc id with
  | .error e => .error (.getFailed e)
  | .ok ds => .ok (ds.dataTo emptyTreat).1

/-- `firestoreDB.UpdateTreat`: issue `Doc(t.ID).Set(ctx, t)` with no
empty-id check; wrap the client error if the call fails. -/
def firestoreUpdateTreat (c : FsClient) (t : Treat) : Option FsErr :=
  match c.setDoc t.ID t with
  | some e => some (.setFailed e)
  | none => none

/-! ### Concrete sample values used in witnesses and counterexamples -/

/-- A sample record with only a title, as a caller would construct it. -/
def tZeta : Treat := { emptyTreat with Title := "Zeta" }

/-- A second sample record. -/
def tAlpha : Treat := { emptyTreat with Title := "Alpha" }

/-- A sample record carrying an id that is not present in a fresh store. -/
def t5 : Treat := { emptyTreat with ID := "5", Title := "Zeta" }

/-- A client whose calls fail the way the real Firestore client fails on an
empty document id: `Doc("")` yields a nil `DocumentRef`, and operations on
it report `firestore: nil DocumentRef`. -/
def nilDocClient : FsClient where
  getDoc := fun _ => .error "firestore: nil DocumentRef"
  setDoc := fun _ _ => some "firestore: nil DocumentRef"

/-- A document snapshot whose `DataTo` fails after partially filling the
record (a deserialization failure). -/
def lossyDoc : FsDoc where
  dataTo := fun t => ({ t with Title := "partial" }, some "firestore: DataTo: type mismatch")

/-- A client whose fetches succeed but deliver `lossyDoc`. -/
def flakyClient : FsClient where
  getDoc := fun _ => .ok lossyDoc
  setDoc := fun _ _ => none

/-- An add/delete trace long enough to overflow the `int64` counter:
`2^63` consecutive `AddTreat` calls. -/
def overflowOps : List AddDel :=
  List.replicate (2 ^ 63 - 2) (AddDel.addT tZeta) ++
    [AddDel.addT tZeta, AddDel.addT tZeta]

/-! ### Lemmas about the decimal formatter -/

theorem natToDigits_ne_nil (n : Nat) : natToDigits n ≠ [] := by
  unfold natToDigits
  split <;> simp

theorem toNat_char_digit (d : Nat) (h : d < 10) :
    (Char.ofNat (48 + d)).toNat = 48 + d := by
  interval_cases d <;> decide

theorem parseDigits_append (l : List Char) (c : Char) :
    parseDigits (l ++ [c]) = 10 * parseDigits l + (c.toNat - 48) := by
  unfold parseDigits
  rw [List.foldl_append]
  rfl

theorem parseDigits_natToDigits (n : Nat) : parseDigits (natToDigits n) = n := by
  induction n using natToDigits.induct with
  | case1 n h =>
    unfold natToDigits
    rw [dif_pos h]
    show 10 * 0 + ((Char.ofNat (48 + n)).toNat - 48) = n
    rw [toNat_char_digit n h]
    omega
  | case2 n h ih =>
    unfold natToDigits
    rw [dif_neg h, parseDigits_append, ih,
      toNat_char_digit (n % 10) (Nat.mod_lt n (by omega))]
    omega

theorem natToDigits_head_large (n : Nat) :
    ∀ c l, natToDigits n = c :: l → 48 ≤ c.toNat := by
  induction n using natToDigits.induct with
  | case1 n h =>
    intro c l he
    unfold natToDigits at he
    rw [dif_pos h] at he
    injection he with h1 _
    rw [← h1, toNat_char_digit n h]
    omega
  | case2 n h ih =>
    intro c l he
    unfold natToDigits at he
    rw [dif_neg h] at he
    cases hne : natToDigits (n / 10) with
    | nil => exact absurd hne (natToDigits_ne_nil _)
    | cons c' l' =>
      rw [hne] at he
      injection he with h1 _
      exact h1 ▸ ih c' l' hne

theorem idNum_formatInt (n : Int) : idNum (formatInt n) = n := by
  unfold formatInt idNum
  split
  case isTrue hneg =>
    show (if some '-' = some '-' then
        -(parseDigits (natToDigits (-n).toNat) : Int)
      else (parseDigits ('-' :: natToDigits (-n).toNat) : Int)) = n
    rw [if_pos rfl, parseDigits_natToDigits, Int.toNat_of_nonneg (by omega)]
    omega
  case isFalse hpos =>
    cases hd : natToDigits n.toNat with
    | nil => exact absurd hd (natToDigits_ne_nil _)
    | cons c l =>
      have hc := natToDigits_head_large n.toNat c l hd
      show (if (c :: l).head? = some '-' then
          -(parseDigits ((c :: l).drop 1) : Int)
        else (parseDigits (c :: l) : Int)) = n
      rw [if_neg (by
        intro h
        injection h with h
        rw [h] at hc
        exact absurd hc (by decide))]
      rw [← hd, parseDigits_natToDigits, Int.toNat_of_nonneg (by omega)]

theorem formatInt_ne_empty (n : Int) : formatInt n ≠ "" := by
  unfold formatInt
  intro h
  split at h
  · have h2 : '-' :: natToDigits (-n).toNat = ([] : List Char) :=
      congrArg String.data h
    exact List.cons_ne_nil _ _ h2
  · exact natToDigits_ne_nil n.toNat (congrArg String.data h)

/-! ### Lemmas about the id ranges `idsFrom` -/

theorem idsFrom_succ (n : Int) (k : Nat) :
    idsFrom n (k + 1) = formatInt n :: idsFrom (n + 1) k := by
  unfold idsFrom
  rw [List.range_succ_eq_map]
  simp only [List.map_cons, List.map_map, Nat.cast_zero, Int.add_zero]
  congr 1
  apply List.map_congr_left
  intro i _
  show formatInt (n + (i + 1 : Nat)) = formatInt (n + 1 + i)
  congr 1
  push_cast
  ring

theorem idsFrom_pairwise_ne (n : Int) (k : Nat) :
    (idsFrom n k).Pairwise (· ≠ ·) := by
  unfold idsFrom
  rw [List.pairwise_map]
  apply List.Pairwise.imp ?_ (List.pairwise_lt_range k)
  intro a b hab he
  have h2 := congrArg idNum he
  rw [idNum_formatInt, idNum_formatInt] at h2
  omega

theorem idsFrom_chain_lt (n : Int) (k : Nat) :
    (idsFrom n k).Chain' (fun a b => idNum a < idNum b) := by
  apply List.Pairwise.chain'
  unfold idsFrom
  rw [List.pairwise_map]
  apply List.Pairwise.imp ?_ (List.pairwise_lt_range k)
  intro a b hab
  rw [idNum_formatInt, idNum_formatInt]
  omega

/-! ### Lemmas about the `int64` counter -/

theorem int64Inc_eq (n : Int) (h1 : -(2 ^ 63) ≤ n) (h2 : n < 2 ^ 63 - 1) :
    int64Inc n = n + 1 := by
  unfold int64Inc
  omega

theorem int64Inc_wrap : int64Inc (2 ^ 63 - 1) = -(2 ^ 63) := by
  unfold int64Inc
  omega

/-! ### Lemmas about the map model -/

theorem mapGet_append_right (l : TreatMap) (k : String) (v : Treat)
    (h : ∀ p ∈ l, p.1 ≠ k) : mapGet (l ++ [(k, v)]) k = some v := by
  induction l with
  | nil => simp [mapGet]
  | cons p rest ih =>
    obtain ⟨k', v'⟩ := p
    show (if k' = k then some v' else mapGet (rest ++ [(k, v)]) k) = some v
    rw [if_neg (h (k', v') (by simp))]
    exact ih (fun q hq => h q (List.mem_cons_of_mem _ hq))

theorem mapGet_mapPut_self (m : TreatMap) (k : String) (v : Treat) :
    mapGet (mapPut m k v) k = some v := by
  apply mapGet_append_right
  intro p hp
  have h2 := (List.mem_filter.1 hp).2
  simpa using h2

theorem mem_mapPut (m : TreatMap) (k : String) (v : Treat) (p : String × Treat) :
    p ∈ mapPut m k v → p ∈ m ∨ p = (k, v) := by
  intro hp
  rcases List.mem_append.1 hp with h | h
  · exact .inl (List.mem_filter.1 h).1
  · simp only [List.mem_singleton] at h
    exact .inr h

/-! ### Lemmas about the in-memory operations and runs -/

theorem memAddTreat_some (n : Int) (m : TreatMap) (t : Treat) :
    memAddTreat ⟨n, some m⟩ t =
      some (formatInt n,
        ⟨int64Inc n, some (mapPut m (formatInt n) { t with ID := formatInt n })⟩) := rfl

theorem memDeleteTreat_state (n : Int) (m : TreatMap) (id : String) :
    ∃ m', (memDeleteTreat ⟨n, some m⟩ id).2 = ⟨n, some m'⟩ := by
  unfold memDeleteTreat
  split
  · exact ⟨m, rfl⟩
  · split
    · exact ⟨m, rfl⟩
    · exact ⟨mapDrop m id, rfl⟩

theorem countAdds_cons_add (t : Treat) (rest : List AddDel) :
    countAdds (AddDel.addT t :: rest) = countAdds rest + 1 := by
  simp [countAdds, List.countP_cons]

theorem countAdds_cons_del (id : String) (rest : List AddDel) :
    countAdds (AddDel.delT id :: rest) = countAdds rest := by
  simp [countAdds, List.countP_cons]

theorem countAdds_replicate (k : Nat) (t : Treat) :
    countAdds (List.replicate k (AddDel.addT t)) = k := by
  induction k with
  | zero => rfl
  | succ k ih => rw [List.replicate_succ, countAdds_cons_add, ih]

theorem runAddDel_ids (ops : List AddDel) :
    ∀ (n : Int) (m : TreatMap), 1 ≤ n → n + countAdds ops ≤ 2 ^ 63 - 1 →
    ∃ m', runAddDel ops ⟨n, some m⟩ =
      some (⟨n + countAdds ops, some m'⟩, idsFrom n (countAdds ops)) := by
  induction ops with
  | nil =>
    intro n m _ _
    exact ⟨m, by simp [runAddDel, countAdds, idsFrom]⟩
  | cons op rest ih =>
    intro n m h1 h2
    cases op with
    | addT t =>
      rw [countAdds_cons_add] at h2 ⊢
      have hinc : int64Inc n = n + 1 := int64Inc_eq n (by omega) (by omega)
      obtain ⟨m', hm'⟩ := ih (n + 1)
        (mapPut m (formatInt n) { t with ID := formatInt n }) (by omega) (by omega)
      have hfin : n + 1 + (countAdds rest : Int) = n + ((countAdds rest + 1 : Nat) : Int) := by
        push_cast
        ring
      rw [hfin] at hm'
      refine ⟨m', ?_⟩
      have hstep : runAddDel (AddDel.addT t :: rest) ⟨n, some m⟩ =
          (runAddDel rest
            ⟨int64Inc n, some (mapPut m (formatInt n) { t with ID := formatInt n })⟩).map
            (fun q => (q.1, formatInt n :: q.2)) := rfl
      rw [hstep, hinc, hm', idsFrom_succ]
      rfl
    | delT id =>
      rw [countAdds_cons_del] at h2 ⊢
      obtain ⟨m2, hm2⟩ := memDeleteTreat_state n m id
      have hstep : runAddDel (AddDel.delT id :: rest) ⟨n, some m⟩ =
          runAddDel rest (memDeleteTreat ⟨n, some m⟩ id).2 := rfl
      rw [hstep, hm2]
      exact ih n m2 h1 h2

theorem runAddDel_append_some (l1 l2 : List AddDel) :
    ∀ (db db1 : MemDB) (ids1 : List String),
    runAddDel l1 db = some (db1, ids1) →
    runAddDel (l1 ++ l2) db =
      (runAddDel l2 db1).map (fun q => (q.1, ids1 ++ q.2)) := by
  induction l1 with
  | nil =>
    intro db db1 ids1 h
    have h2 : some (db, ([] : List String)) = some (db1, ids1) := h
    rw [Option.some.injEq, Prod.mk.injEq] at h2
    obtain ⟨ha, hb⟩ := h2
    subst ha
    subst hb
    show runAddDel l2 db = (runAddDel l2 db).map (fun q => (q.1, [] ++ q.2))
    cases runAddDel l2 db <;> simp
  | cons op rest ih =>
    intro db db1 ids1 h
    cases op with
    | addT t =>
      cases hA : memAddTreat db t with
      | none => simp [runAddDel, hA] at h
      | some p =>
        obtain ⟨id0, dbA⟩ := p
        have h2 : (runAddDel rest dbA).map (fun q => (q.1, id0 :: q.2)) =
            some (db1, ids1) := by
          rw [← h]
          simp [runAddDel, hA]
        cases hR : runAddDel rest dbA with
        | none => rw [hR] at h2; simp at h2
        | some q =>
          obtain ⟨dbR, idsR⟩ := q
          rw [hR] at h2
          simp only [Option.map_some', Option.some.injEq, Prod.mk.injEq] at h2
          obtain ⟨ha, hb⟩ := h2
          subst ha
          subst hb
          have h3 : runAddDel ((AddDel.addT t :: rest) ++ l2) db =
              (runAddDel (rest ++ l2) dbA).map (fun q => (q.1, id0 :: q.2)) := by
            simp [runAddDel, hA]
          rw [h3, ih dbA dbR idsR hR]
          cases runAddDel l2 dbR <;> simp
    | delT id =>
      have h2 : runAddDel rest (memDeleteTreat db id).2 = some (db1, ids1) := h
      show runAddDel (rest ++ l2) (memDeleteTreat db id).2 = _
      exact ih _ db1 ids1 h2

theorem storeOK_newMemoryDB : storeOK newMemoryDB := by
  intro p hp
  exact absurd hp (List.not_mem_nil p)


theorem memAddTreat_storeOK (db : MemDB) (t : Treat) (id : String) (db' : MemDB)
    (hok : storeOK db) (h : memAddTreat db t = some (id, db')) : storeOK db' := by
  obtain ⟨n, tr⟩ := db
  cases tr with
  | none => exact absurd h (by simp [memAddTreat])
  | some m =>
    rw [memAddTreat_some, Option.some.injEq, Prod.mk.injEq] at h
    rw [← h.2]
    intro p hp
    rcases mem_mapPut m (formatInt n) { t with ID := formatInt n } p hp with hm | hm
    · exact hok p hm
    · rw [hm]
      exact ⟨formatInt_ne_empty n, rfl⟩

theorem memUpdateTreat_storeOK (db : MemDB) (t : Treat) (e : Option MemErr) (db' : MemDB)
    (hok : storeOK db) (h : memUpdateTreat db t = some (e, db')) : storeOK db' := by
  unfold memUpdateTreat at h
  split at h
  · rw [Option.some.injEq, Prod.mk.injEq] at h
    exact h.2 ▸ hok
  case isFalse hne =>
    obtain ⟨n, tr⟩ := db
    cases tr with
    | none => simp at h
    | some m =>
      have h2 : some ((none : Option MemErr),
          ({ nextID := n, treats := some (mapPut m t.ID t) } : MemDB)) = some (e, db') := h
      rw [Option.some.injEq, Prod.mk.injEq] at h2
      rw [← h2.2]
      intro p hp
      rcases mem_mapPut m t.ID t p hp with hm | hm
      · exact hok p hm
      · rw [hm]
        exact ⟨hne, rfl⟩

theorem memDeleteTreat_storeOK (db : MemDB) (id : String) (hok : storeOK db) :
    storeOK (memDeleteTreat db id).2 := by
  obtain ⟨n, tr⟩ := db
  cases tr with
  | none =>
    unfold memDeleteTreat
    split
    · exact hok
    · split
      · exact hok
      · intro p hp
        exact absurd hp (List.not_mem_nil p)
  | some m =>
    unfold memDeleteTreat
    split
    · exact hok
    · split
      · exact hok
      · intro p hp
        have hp2 : p ∈ List.filter (fun q => !(q.1 == id)) m := hp
        exact hok p (List.mem_filter.1 hp2).1

theorem memStep_storeOK (op : MemOp) (db db' : MemDB) (e : Option MemErr)
    (hok : storeOK db) (h : memStep op db = some (db', e)) : storeOK db' := by
  cases op with
  | get id =>
    have h2 : some (db, exceptErr (memGetTreat db id)) = some (db', e) := h
    rw [Option.some.injEq, Prod.mk.injEq] at h2
    exact h2.1 ▸ hok
  | add t =>
    have h2 : (memAddTreat db t).map (fun p => (p.2, (none : Option MemErr))) =
        some (db', e) := h
    cases hA : memAddTreat db t with
    | none => rw [hA] at h2; simp at h2
    | some p =>
      rw [hA, Option.map_some', Option.some.injEq, Prod.mk.injEq] at h2
      exact h2.1 ▸ memAddTreat_storeOK db t p.1 p.2 hok (by rw [hA])
  | update t =>
    have h2 : (memUpdateTreat db t).map (fun q => (q.2, q.1)) = some (db', e) := h
    cases hU : memUpdateTreat db t with
    | none => rw [hU] at h2; simp at h2
    | some q =>
      rw [hU, Option.map_some', Option.some.injEq, Prod.mk.injEq] at h2
      exact h2.1 ▸ memUpdateTreat_storeOK db t q.1 q.2 hok (by rw [hU])
  | del id =>
    have h2 : some ((memDeleteTreat db id).2, (memDeleteTreat db id).1) =
        some (db', e) := h
    rw [Option.some.injEq, Prod.mk.injEq] at h2
    exact h2.1 ▸ memDeleteTreat_storeOK db id hok
  | list =>
    have h2 : some (db, (memListTreats db).2) = some (db', e) := h
    rw [Option.some.injEq, Prod.mk.injEq] at h2
    exact h2.1 ▸ hok
  | close =>
    have h2 : some (({ db with treats := none } : MemDB), (none : Option MemErr)) =
        some (db', e) := h
    rw [Option.some.injEq, Prod.mk.injEq] at h2
    rw [← h2.1]
    intro p hp
    exact absurd hp (List.not_mem_nil p)

theorem runMem_storeOK (ops : List MemOp) :
    ∀ db db', storeOK db → runMem ops db = some db' → storeOK db' := by
  induction ops with
  | nil =>
    intro db db' hok h
    have h2 : some db = some db' := h
    rw [Option.some.injEq] at h2
    exact h2 ▸ hok
  | cons op rest ih =>
    intro db db' hok h
    have h2 : (memStep op db).bind (fun p => runMem rest p.1) = some db' := h
    cases hs : memStep op db with
    | none => rw [hs] at h2; simp at h2
    | some p =>
      rw [hs] at h2
      exact ih p.1 db' (memStep_storeOK op db p.1 p.2 hok (by rw [hs])) h2

/-! ### Equation lemmas for the individual operations -/

theorem memGetTreat_lookup (n : Int) (m : TreatMap) (id : String) :
    memGetTreat ⟨n, some m⟩ id =
      match mapGet m id with
      | some t => .ok t
      | none => .error (.getNotFound id) := rfl

theorem memDeleteTreat_eq_empty (db : MemDB) :
    memDeleteTreat db "" = (some .deleteUnassignedID, db) := by
  unfold memDeleteTreat
  rw [if_pos rfl]

theorem memDeleteTreat_eq_missing (db : MemDB) (id : String)
    (h1 : id ≠ "") (h2 : mapGet (db.treats.getD []) id = none) :
    memDeleteTreat db id = (some (.deleteNotFound id), db) := by
  unfold memDeleteTreat
  rw [if_neg h1, h2]

theorem memDeleteTreat_eq_found (db : MemDB) (id : String) (t : Treat)
    (h1 : id ≠ "") (h2 : mapGet (db.treats.getD []) id = some t) :
    memDeleteTreat db id =
      (none, { db with treats := db.treats.map (fun m => mapDrop m id) }) := by
  unfold memDeleteTreat
  rw [if_neg h1, h2]

theorem memUpdateTreat_eq_put (db : MemDB) (m : TreatMap) (t : Treat)
    (h1 : db.treats = some m) (h2 : t.ID ≠ "") :
    memUpdateTreat db t =
      some (none, { db with treats := some (mapPut m t.ID t) }) := by
  unfold memUpdateTreat
  rw [if_neg h2]
  obtain ⟨n, tr⟩ := db
  have h1' : tr = some m := h1
  subst h1'
  rfl

theorem memUpdateTreat_error_frame (db : MemDB) (t : Treat) (e : MemErr) (db' : MemDB)
    (h : memUpdateTreat db t = some (some e, db')) : db' = db := by
  unfold memUpdateTreat at h
  split at h
  · rw [Option.some.injEq, Prod.mk.injEq] at h
    exact h.2.symm
  · obtain ⟨n, tr⟩ := db
    cases tr with
    | none => simp at h
    | some m =>
      have h2 : some ((none : Option MemErr),
          ({ nextID := n, treats := some (mapPut m t.ID t) } : MemDB)) =
          some (some e, db') := h
      rw [Option.some.injEq, Prod.mk.injEq] at h2
      exact absurd h2.1 (by simp)

theorem memDeleteTreat_error_frame (db : MemDB) (id : String) (e : MemErr)
    (h : (memDeleteTreat db id).1 = some e) : (memDeleteTreat db id).2 = db := by
  by_cases hid : id = ""
  · subst hid
    rw [memDeleteTreat_eq_empty]
  · cases hg : mapGet (db.treats.getD []) id with
    | none => rw [memDeleteTreat_eq_missing db id hid hg]
    | some t =>
      rw [memDeleteTreat_eq_found db id t hid hg] at h
      exact absurd h (by simp)

theorem runAddDel_two_adds (n : Int) (m : TreatMap) (t : Treat) :
    ∃ mf, runAddDel [AddDel.addT t, AddDel.addT t] ⟨n, some m⟩ =
      some (⟨int64Inc (int64Inc n), some mf⟩,
        [formatInt n, formatInt (int64Inc n)]) :=
  ⟨_, rfl⟩

/-! ### Claim theorems -/

/-- C1 counterexample: on a fresh in-memory store, `UpdateTreat` of the
record `t5` (non-empty id `"5"`, absent from the store) returns a nil
error — not a `NotFound` error — and the store afterwards contains the
record under key `"5"`.  This falsifies the claim that such an update
fails with `NotFound` and does not create the record. -/
theorem c1_update_missing_creates :
    memUpdateTreat newMemoryDB t5 =
      some (none, ⟨1, some [("5", t5)]⟩) ∧
    mapGet [("5", t5)] "5" = some t5 := by
  constructor
  · decide
  · decide

/-- C1 (amended): `UpdateTreat` on a record whose non-empty id is not
present in the (non-closed) in-memory store does NOT fail: it returns a
nil error and inserts the record under that id (create-or-replace),
leaving the counter untouched, after which the id looks the record up. -/
theorem memUpdateTreat_missing_upserts (db : MemDB) (m : TreatMap) (t : Treat)
    (h1 : db.treats = some m) (h2 : t.ID ≠ "") (_h3 : mapGet m t.ID = none) :
    memUpdateTreat db t =
      some (none, { db with treats := some (mapPut m t.ID t) }) ∧
    mapGet (mapPut m t.ID t) t.ID = some t :=
  ⟨memUpdateTreat_eq_put db m t h1 h2, mapGet_mapPut_self m t.ID t⟩

/-- Witness for `memUpdateTreat_missing_upserts` at the fresh store and
the concrete record `t5`. -/
theorem memUpdateTreat_missing_upserts_witness :
    newMemoryDB.treats = some [] ∧ t5.ID ≠ "" ∧ mapGet [] t5.ID = none ∧
    (memUpdateTreat newMemoryDB t5 =
        some (none, { newMemoryDB with treats := some (mapPut [] t5.ID t5) }) ∧
      mapGet (mapPut [] t5.ID t5) t5.ID = some t5) :=
  ⟨rfl, by decide, rfl,
   memUpdateTreat_missing_upserts newMemoryDB [] t5 rfl (by decide) rfl⟩

/-- C4: whenever `AddTreat` on the in-memory store returns an id (it
returns no error when it returns at all), `GetTreat` of that id on the
resulting store returns the input record with its `ID` field set to the
assigned id and every other field unchanged. -/
theorem addTreat_then_get (db : MemDB) (t : Treat) (id : String) (db' : MemDB)
    (h : memAddTreat db t = some (id, db')) :
    memGetTreat db' id = .ok { t with ID := id } := by
  obtain ⟨n, tr⟩ := db
  cases tr with
  | none => exact absurd h (by simp [memAddTreat])
  | some m =>
    rw [memAddTreat_some, Option.some.injEq, Prod.mk.injEq] at h
    obtain ⟨h1, h2⟩ := h
    subst h1
    subst h2
    rw [memGetTreat_lookup, mapGet_mapPut_self]

/-- Witness for `addTreat_then_get`: adding `tZeta` to a fresh store and
reading the assigned id back. -/
theorem addTreat_then_get_witness :
    memAddTreat newMemoryDB tZeta =
      some (formatInt 1,
        ⟨int64Inc 1, some (mapPut [] (formatInt 1) { tZeta with ID := formatInt 1 })⟩) ∧
    memGetTreat
        ⟨int64Inc 1, some (mapPut [] (formatInt 1) { tZeta with ID := formatInt 1 })⟩
        (formatInt 1) =
      .ok { tZeta with ID := formatInt 1 } :=
  ⟨rfl, addTreat_then_get newMemoryDB tZeta _ _ rfl⟩

/-- C6: on the in-memory store, `DeleteTreat` of the empty id fails with
the `InvalidArgument`-kind error and leaves the store unchanged, and
`DeleteTreat` of any non-empty id that is not in the map (in particular
any id on an empty store) fails with the `NotFound`-kind error and leaves
the store unchanged. -/
theorem deleteTreat_errors :
    (∀ db : MemDB,
      memDeleteTreat db "" = (some .deleteUnassignedID, db) ∧
      MemErr.deleteUnassignedID.isInvalidArgument = true) ∧
    (∀ (db : MemDB) (id : String), id ≠ "" →
      mapGet (db.treats.getD []) id = none →
      memDeleteTreat db id = (some (.deleteNotFound id), db) ∧
      (MemErr.deleteNotFound id).isNotFound = true) :=
  ⟨fun db => ⟨memDeleteTreat_eq_empty db, rfl⟩,
   fun db id h1 h2 => ⟨memDeleteTreat_eq_missing db id h1 h2, rfl⟩⟩

/-- Witness for `deleteTreat_errors`: the spec's own scenario — deleting
`"1"` and `""` on the fresh (empty) store. -/
theorem deleteTreat_errors_witness :
    (memDeleteTreat newMemoryDB "" = (some .deleteUnassignedID, newMemoryDB) ∧
      MemErr.deleteUnassignedID.isInvalidArgument = true) ∧
    (memDeleteTreat newMemoryDB "1" = (some (.deleteNotFound "1"), newMemoryDB) ∧
      (MemErr.deleteNotFound "1").isNotFound = true) :=
  ⟨deleteTreat_errors.1 newMemoryDB,
   deleteTreat_errors.2 newMemoryDB "1" (by decide) rfl⟩

/-- C3: `ListTreats` always returns a nil error and a sequence that is
sorted by `Title` ascending (Lean's `String` order is lexicographic on
characters, which for UTF-8 strings coincides with Go's byte-wise `<`)
and is a permutation of the stored records; on the fresh empty store it
returns the empty sequence. -/
theorem listTreats_sorted :
    (∀ db : MemDB,
      (memListTreats db).2 = none ∧
      (memListTreats db).1.Pairwise (fun a b => a.Title ≤ b.Title) ∧
      (memListTreats db).1.Perm ((db.treats.getD []).map Prod.snd)) ∧
    memListTreats newMemoryDB = ([], none) := by
  constructor
  · intro db
    refine ⟨rfl, ?_, ?_⟩
    · have htrans : ∀ (a b c : Treat), titleLe a b → titleLe b c → titleLe a c := by
        intro a b c hab hbc
        simp only [titleLe, decide_eq_true_eq] at *
        exact le_trans hab hbc
      have htotal : ∀ (a b : Treat), titleLe a b || titleLe b a := by
        intro a b
        simp only [titleLe, Bool.or_eq_true, decide_eq_true_eq]
        exact le_total a.Title b.Title
      have hs := List.sorted_mergeSort htrans htotal ((db.treats.getD []).map Prod.snd)
      refine List.Pairwise.imp ?_ hs
      intro a b hab
      simpa [titleLe] using hab
    · exact List.mergeSort_perm ((db.treats.getD []).map Prod.snd) titleLe
  · simp [memListTreats, newMemoryDB]

/-- C5 counterexample: the Firestore backend's `UpdateTreat` has no
empty-id check; modelling the real client's reaction to the nil
`DocumentRef` produced by `Doc("")`, the call fails with the adapter's
`fmt.Errorf` wrap — a `BackendError`, not an `InvalidArgument` error.
This falsifies the claim that BOTH backends fail with `InvalidArgument`
on an empty id. -/
theorem c5_firestore_empty_id_not_invalid_argument :
    firestoreUpdateTreat nilDocClient emptyTreat =
      some (.setFailed "firestore: nil DocumentRef") ∧
    (FsErr.setFailed "firestore: nil DocumentRef").isInvalidArgument = false ∧
    (FsErr.setFailed "firestore: nil DocumentRef").isBackend = true :=
  ⟨rfl, rfl, rfl⟩

/-- C5 (amended): `UpdateTreat` with an empty id fails with the
`InvalidArgument`-kind error on the in-memory backend (leaving the store
unchanged); the Firestore backend performs no empty-id check, and any
error it returns — for any client outcome and any record — is a
`BackendError` wrap, never an `InvalidArgument`. -/
theorem updateTreat_empty_id_kinds :
    (∀ (db : MemDB) (t : Treat), t.ID = "" →
      memUpdateTreat db t = some (some .updateUnassignedID, db) ∧
      MemErr.updateUnassignedID.isInvalidArgument = true) ∧
    (∀ (c : FsClient) (t : Treat) (e : FsErr), firestoreUpdateTreat c t = some e →
      e.isBackend = true ∧ e.isInvalidArgument = false) := by
  constructor
  · intro db t h
    refine ⟨?_, rfl⟩
    unfold memUpdateTreat
    rw [if_pos h]
  · intro c t e _
    exact ⟨rfl, rfl⟩

/-- Witness for `updateTreat_empty_id_kinds` at concrete inputs. -/
theorem updateTreat_empty_id_kinds_witness :
    (memUpdateTreat newMemoryDB emptyTreat =
        some (some .updateUnassignedID, newMemoryDB) ∧
      MemErr.updateUnassignedID.isInvalidArgument = true) ∧
    ((FsErr.setFailed "firestore: nil DocumentRef").isBackend = true ∧
      (FsErr.setFailed "firestore: nil DocumentRef").isInvalidArgument = false) :=
  ⟨updateTreat_empty_id_kinds.1 newMemoryDB emptyTreat rfl,
   updateTreat_empty_id_kinds.2 nilDocClient emptyTreat
     (.setFailed "firestore: nil DocumentRef") rfl⟩

/-- C7 counterexample: after `Close`, `AddTreat` writes to the nil map
and panics (modelled `none`): it neither returns an error nor behaves as
on an empty store, where the same call succeeds.  This falsifies the
claim that EVERY post-close operation fails by returning an error or
behaves as on an empty store. -/
theorem c7_post_close_add_panics :
    memAddTreat (memClose newMemoryDB).1 tZeta = none ∧
    (memAddTreat newMemoryDB tZeta).isSome = true :=
  ⟨rfl, rfl⟩

/-- C7 (amended): after `Close`, `GetTreat` and `DeleteTreat` fail by
returning errors, `ListTreats` returns the empty sequence with a nil
error, and `UpdateTreat` with an empty id returns the usual
`InvalidArgument`-kind error — but `AddTreat` and `UpdateTreat` with a
non-empty id panic (write to the nil map, modelled `none`) instead of
returning an error. -/
theorem post_close_behavior (db : MemDB) :
    (∀ id, memGetTreat (memClose db).1 id = .error (.getNotFound id)) ∧
    memListTreats (memClose db).1 = ([], none) ∧
    memDeleteTreat (memClose db).1 "" = (some .deleteUnassignedID, (memClose db).1) ∧
    (∀ id, id ≠ "" →
      memDeleteTreat (memClose db).1 id = (some (.deleteNotFound id), (memClose db).1)) ∧
    (∀ t, memAddTreat (memClose db).1 t = none) ∧
    (∀ t : Treat, t.ID = "" →
      memUpdateTreat (memClose db).1 t = some (some .updateUnassignedID, (memClose db).1)) ∧
    (∀ t : Treat, t.ID ≠ "" → memUpdateTreat (memClose db).1 t = none) := by
  refine ⟨fun id => rfl, ?_, memDeleteTreat_eq_empty _, ?_, fun t => rfl, ?_, ?_⟩
  · simp [memListTreats, memClose]
  · intro id h
    exact memDeleteTreat_eq_missing _ id h rfl
  · intro t h
    unfold memUpdateTreat
    rw [if_pos h]
  · intro t h
    unfold memUpdateTreat
    rw [if_neg h]
    rfl

/-- Witness for `post_close_behavior` at the fresh store and concrete
ids/records. -/
theorem post_close_behavior_witness :
    memGetTreat (memClose newMemoryDB).1 "1" = .error (.getNotFound "1") ∧
    memListTreats (memClose newMemoryDB).1 = ([], none) ∧
    memDeleteTreat (memClose newMemoryDB).1 "1" =
      (some (.deleteNotFound "1"), (memClose newMemoryDB).1) ∧
    memAddTreat (memClose newMemoryDB).1 tZeta = none ∧
    memUpdateTreat (memClose newMemoryDB).1 t5 = none :=
  ⟨(post_close_behavior newMemoryDB).1 "1",
   (post_close_behavior newMemoryDB).2.1,
   (post_close_behavior newMemoryDB).2.2.2.1 "1" (by decide),
   (post_close_behavior newMemoryDB).2.2.2.2.1 tZeta,
   (post_close_behavior newMemoryDB).2.2.2.2.2.2 t5 (by decide)⟩

set_option linter.constructorNameAsVariable false in
/-- C2 counterexample: the source's counter is an `int64` and Go's `++`
wraps on overflow, so after enough `AddTreat` calls the assigned id drops
from `formatInt (2^63 - 1)` to `formatInt (-2^63)`: over the explicit
trace `overflowOps` (2^63 consecutive adds) the returned ids are not
strictly increasing.  The claim as stated quantifies over EVERY sequence
of calls, so it fails on this trace. -/
theorem c2_counter_overflow :
    ∃ db' ids, runAddDel overflowOps newMemoryDB = some (db', ids) ∧
      ¬ ids.Chain' (fun a b => idNum a < idNum b) := by
  obtain ⟨m', hm'⟩ :=
    runAddDel_ids (List.replicate (2 ^ 63 - 2) (AddDel.addT tZeta)) 1 []
      (by omega) (by rw [countAdds_replicate]; omega)
  rw [countAdds_replicate] at hm'
  have h1 : (1 : Int) + ((2 ^ 63 - 2 : Nat) : Int) = 2 ^ 63 - 1 := by
    omega
  rw [h1] at hm'
  have happ := runAddDel_append_some
    (List.replicate (2 ^ 63 - 2) (AddDel.addT tZeta))
    [AddDel.addT tZeta, AddDel.addT tZeta] newMemoryDB _ _ hm'
  obtain ⟨mf, htwo⟩ := runAddDel_two_adds (2 ^ 63 - 1) m' tZeta
  rw [int64Inc_wrap] at htwo
  rw [htwo, Option.map_some'] at happ
  refine ⟨_, _, happ, ?_⟩
  intro hch
  rw [List.chain'_append] at hch
  have h3 := hch.2.1
  rw [List.chain'_pair] at h3
  rw [idNum_formatInt, idNum_formatInt] at h3
  omega

/-- C2 (amended): for every sequence of `AddTreat` calls interleaved with
`DeleteTreat` calls on a fresh in-memory store, as long as the number of
adds stays at most `2^63 - 2` (so the `int64` counter never overflows —
any physically realizable sequence), the run succeeds and the assigned
ids are exactly the decimal strings of the counter values `1, 2, ..., k`
in call order: numerically strictly increasing and pairwise distinct, so
an id is never reassigned even after the record holding it is deleted. -/
theorem addDelete_ids_counter (ops : List AddDel)
    (h : countAdds ops ≤ 2 ^ 63 - 2) :
    ∃ db', runAddDel ops newMemoryDB = some (db', idsFrom 1 (countAdds ops)) ∧
      (idsFrom 1 (countAdds ops)).Chain' (fun a b => idNum a < idNum b) ∧
      (idsFrom 1 (countAdds ops)).Pairwise (· ≠ ·) := by
  obtain ⟨m', hm'⟩ := runAddDel_ids ops 1 [] (by omega) (by omega)
  exact ⟨_, hm', idsFrom_chain_lt 1 _, idsFrom_pairwise_ne 1 _⟩

/-- Witness for `addDelete_ids_counter`: add, delete the first id, add
again — ids are "1" then "2", never reusing "1". -/
theorem addDelete_ids_counter_witness :
    countAdds [AddDel.addT tZeta, AddDel.delT "1", AddDel.addT tAlpha] ≤ 2 ^ 63 - 2 ∧
    ∃ db', runAddDel [AddDel.addT tZeta, AddDel.delT "1", AddDel.addT tAlpha] newMemoryDB =
        some (db',
          idsFrom 1 (countAdds [AddDel.addT tZeta, AddDel.delT "1", AddDel.addT tAlpha])) ∧
      (idsFrom 1
          (countAdds [AddDel.addT tZeta, AddDel.delT "1", AddDel.addT tAlpha])).Chain'
        (fun a b => idNum a < idNum b) ∧
      (idsFrom 1
          (countAdds [AddDel.addT tZeta, AddDel.delT "1", AddDel.addT tAlpha])).Pairwise
        (· ≠ ·) :=
  ⟨by decide,
   addDelete_ids_counter [AddDel.addT tZeta, AddDel.delT "1", AddDel.addT tAlpha]
     (by decide)⟩

/-- C8: every store state reachable from `newMemoryDB` through any
sequence of interface calls satisfies the invariant that each stored
record carries a non-empty id equal to its map key; the invariant holds
initially and is preserved by every single operation. -/
theorem mem_invariant :
    storeOK newMemoryDB ∧
    (∀ (op : MemOp) (db db' : MemDB) (e : Option MemErr),
      storeOK db → memStep op db = some (db', e) → storeOK db') ∧
    (∀ (ops : List MemOp) (db : MemDB),
      runMem ops newMemoryDB = some db → storeOK db) :=
  ⟨storeOK_newMemoryDB, memStep_storeOK,
   fun ops db h => runMem_storeOK ops newMemoryDB db storeOK_newMemoryDB h⟩

/-- Witness for `mem_invariant`: the state after one `AddTreat` on the
fresh store satisfies the invariant. -/
theorem mem_invariant_witness :
    storeOK ⟨int64Inc 1, some (mapPut [] (formatInt 1) { tZeta with ID := formatInt 1 })⟩ :=
  mem_invariant.2.2 [MemOp.add tZeta] _ rfl

/-- C9 counterexample: a fetched document whose `DataTo` reports a
deserialization failure (`lossyDoc`) still makes `firestoreDB.GetTreat`
return a nil error together with the partially-filled record, because the
source discards the result of `ds.DataTo(t)`.  This falsifies the claim
that a deserialization failure is surfaced as a `BackendError` and never
as a nil error with a partially-filled record. -/
theorem c9_dataTo_failure_swallowed :
    (lossyDoc.dataTo emptyTreat).2 = some "firestore: DataTo: type mismatch" ∧
    firestoreGetTreat flakyClient "1" = .ok { emptyTreat with Title := "partial" } :=
  ⟨rfl, rfl⟩

/-- C9 (amended): `firestoreDB.GetTreat` returns an error exactly when
the fetch itself fails, wrapping the underlying cause as a
`BackendError`; when the fetch succeeds it returns a nil error with
whatever record `DataTo` produced, even if `DataTo` reported a
deserialization failure (that error is discarded). -/
theorem firestoreGetTreat_errors :
    (∀ (c : FsClient) (id cause : String), c.getDoc id = .error cause →
      firestoreGetTreat c id = .error (.getFailed cause) ∧
      (FsErr.getFailed cause).isBackend = true) ∧
    (∀ (c : FsClient) (id : String) (ds : FsDoc), c.getDoc id = .ok ds →
      firestoreGetTreat c id = .ok (ds.dataTo emptyTreat).1) := by
  constructor
  · intro c id cause h
    refine ⟨?_, rfl⟩
    unfold firestoreGetTreat
    rw [h]
  · intro c id ds h
    unfold firestoreGetTreat
    rw [h]

/-- Witness for `firestoreGetTreat_errors` at concrete clients. -/
theorem firestoreGetTreat_errors_witness :
    (firestoreGetTreat nilDocClient "1" =
        .error (.getFailed "firestore: nil DocumentRef") ∧
      (FsErr.getFailed "firestore: nil DocumentRef").isBackend = true) ∧
    firestoreGetTreat flakyClient "2" = .ok (lossyDoc.dataTo emptyTreat).1 :=
  ⟨firestoreGetTreat_errors.1 nilDocClient "1" "firestore: nil DocumentRef" rfl,
   firestoreGetTreat_errors.2 flakyClient "2" lossyDoc rfl⟩

/-- C10: whenever an in-memory operation returns a non-nil error, the
store state — map and counter both — is exactly the state before the
call. -/
theorem error_leaves_state_unchanged (op : MemOp) (db db' : MemDB) (e : MemErr)
    (h : memStep op db = some (db', some e)) : db' = db := by
  cases op with
  | get id =>
    have h2 : some (db, exceptErr (memGetTreat db id)) = some (db', some e) := h
    rw [Option.some.injEq, Prod.mk.injEq] at h2
    exact h2.1.symm
  | add t =>
    have h2 : (memAddTreat db t).map (fun p => (p.2, (none : Option MemErr))) =
        some (db', some e) := h
    cases hA : memAddTreat db t with
    | none => rw [hA] at h2; simp at h2
    | some p =>
      rw [hA, Option.map_some', Option.some.injEq, Prod.mk.injEq] at h2
      exact absurd h2.2 (by simp)
  | update t =>
    have h2 : (memUpdateTreat db t).map (fun q => (q.2, q.1)) = some (db', some e) := h
    cases hU : memUpdateTreat db t with
    | none => rw [hU] at h2; simp at h2
    | some q =>
      rw [hU, Option.map_some', Option.some.injEq, Prod.mk.injEq] at h2
      obtain ⟨h3, h4⟩ := h2
      exact h3 ▸ memUpdateTreat_error_frame db t e q.2 (by rw [hU, ← h4])
  | del id =>
    have h2 : some ((memDeleteTreat db id).2, (memDeleteTreat db id).1) =
        some (db', some e) := h
    rw [Option.some.injEq, Prod.mk.injEq] at h2
    exact h2.1 ▸ memDeleteTreat_error_frame db id e h2.2
  | list =>
    have h2 : some (db, (memListTreats db).2) = some (db', some e) := h
    rw [Option.some.injEq, Prod.mk.injEq] at h2
    exact absurd h2.2 (by simp [memListTreats])
  | close =>
    have h2 : some (({ db with treats := none } : MemDB), (none : Option MemErr)) =
        some (db', some e) := h
    rw [Option.some.injEq, Prod.mk.injEq] at h2
    exact absurd h2.2 (by simp)

/-- Witness for `error_leaves_state_unchanged`: the failing
`DeleteTreat("")` on the fresh store leaves it unchanged. -/
theorem error_leaves_state_unchanged_witness :
    memStep (MemOp.del "") newMemoryDB =
      some (newMemoryDB, some MemErr.deleteUnassignedID) ∧
    newMemoryDB = newMemoryDB :=
  ⟨rfl,
   error_leaves_state_unchanged (MemOp.del "") newMemoryDB newMemoryDB
     MemErr.deleteUnassignedID rfl⟩
